import Mathlib

/-!
Shallow embedding of the `von_mises_profile` class of simpulse
(src/include/simpulse/pulsar_profiles.hpp).  The repository ships only the
header (declarations and documentation comments); every function body is
modelled from the specification, as noted in the doc comments below.
All real arithmetic is modelled exactly over `ℝ`.
-/

namespace Simpulse

/-- Narrowness parameter: `kappa = log 2 / (2 sin^2 (pi * D / 2))`
(header line 51 and spec section 3). -/
noncomputable def kappa (duty_cycle : ℝ) : ℝ :=
  Real.log 2 / (2 * Real.sin (Real.pi * duty_cycle / 2) ^ 2)

/-- The von Mises profile shape `rho(phi) = exp (-2 kappa sin^2 (pi phi))`
(header line 49). -/
noncomputable def rho (duty_cycle : ℝ) (phi : ℝ) : ℝ :=
  Real.exp (-2 * kappa duty_cycle * Real.sin (Real.pi * phi) ^ 2)

/-- The state of a constructed `von_mises_profile`: the three constructor
inputs, with `internal_nphi` the number of phase bins of the internal grid.
All derived grids are modelled as functions of this state. -/
structure von_mises_profile where
  duty_cycle : ℝ
  detrend : Bool
  internal_nphi : ℕ

namespace von_mises_profile

/-- Modelled from the spec: raw (pre-detrend) profile sample at grid index
`i`, i.e. the profile evaluated at phase `i / internal_nphi`. -/
noncomputable def raw_grid (p : von_mises_profile) (i : ℕ) : ℝ :=
  rho p.duty_cycle (i / p.internal_nphi)

/-- Modelled from the spec: `mean_flux` is the composite-trapezoid quadrature
of the raw profile over one period. -/
noncomputable def mean_flux (p : von_mises_profile) : ℝ :=
  (∑ i in Finset.range p.internal_nphi, (p.raw_grid i + p.raw_grid (i + 1)) / 2)
    / p.internal_nphi

/-- Modelled from the spec: the (possibly detrended) profile grid; when
`detrend` is set the mean flux has been subtracted from every sample. -/
noncomputable def detrended_profile (p : von_mises_profile) (i : ℕ) : ℝ :=
  p.raw_grid i - (if p.detrend then p.mean_flux else 0)

/-- Modelled from the spec: running sum of per-bin trapezoid areas under the
(possibly detrended) profile; entry `i` is the integral from phase 0 to
phase `i / internal_nphi`. -/
noncomputable def detrended_profile_antider (p : von_mises_profile) (i : ℕ) : ℝ :=
  ∑ j in Finset.range i,
    (p.detrended_profile j + p.detrended_profile (j + 1)) / (2 * p.internal_nphi)

/-- Modelled from the spec: the integral of the (possibly detrended) profile
over one whole period: `mean_flux` if not detrended, 0 if detrended. -/
noncomputable def period_integral (p : von_mises_profile) : ℝ :=
  if p.detrend then 0 else p.mean_flux

/-- Modelled from the spec: `point_eval` wraps the phase into `[0,1)` by true
modulo, locates the bracketing grid interval and linearly interpolates the
(possibly detrended) profile there, scaling by `amplitude`. -/
noncomputable def point_eval (p : von_mises_profile) (phi amplitude : ℝ) : ℝ :=
  amplitude *
    ((1 - (Int.fract phi * p.internal_nphi - ((⌊Int.fract phi * p.internal_nphi⌋).toNat : ℝ))) *
        p.detrended_profile (⌊Int.fract phi * p.internal_nphi⌋).toNat +
      (Int.fract phi * p.internal_nphi - ((⌊Int.fract phi * p.internal_nphi⌋).toNat : ℝ)) *
        p.detrended_profile ((⌊Int.fract phi * p.internal_nphi⌋).toNat + 1))

/-- Modelled from the spec: endpoint interpolation into the antiderivative
grid, for a wrapped phase `x ∈ [0,1)`. -/
noncomputable def antider_interp (p : von_mises_profile) (x : ℝ) : ℝ :=
  (1 - (x * p.internal_nphi - ((⌊x * p.internal_nphi⌋).toNat : ℝ))) *
      p.detrended_profile_antider (⌊x * p.internal_nphi⌋).toNat +
    (x * p.internal_nphi - ((⌊x * p.internal_nphi⌋).toNat : ℝ)) *
      p.detrended_profile_antider ((⌊x * p.internal_nphi⌋).toNat + 1)

/-- Modelled from the spec: antiderivative of the (possibly detrended)
periodic profile at an arbitrary phase, decomposed as whole periods times
`period_integral` plus an antiderivative-grid lookup of the remainder. -/
noncomputable def phase_antider (p : von_mises_profile) (phi : ℝ) : ℝ :=
  (⌊phi⌋ : ℝ) * p.period_integral + p.antider_interp (Int.fract phi)

/-- Modelled from the spec: average flux over the phase interval
`[phi0, phi1]`, computed by the fast antiderivative path as
`(k * period_integral + lookup(fractional remainder)) / (phi1 - phi0)`. -/
noncomputable def interval_mean (p : von_mises_profile) (phi0 phi1 : ℝ) : ℝ :=
  (p.phase_antider phi1 - p.phase_antider phi0) / (phi1 - phi0)

open Classical in
/-- Modelled from the spec: `eval_integrated_samples` splits `[t0, t1)` into
`nt` equal time bins, maps each bin boundary to a phase through the phase
model `pm`, and writes the per-bin average flux scaled by `amplitude`.
Fails (returns `none`) iff `nt ≤ 0` or `t1 ≤ t0`. -/
noncomputable def eval_integrated_samples (p : von_mises_profile)
    (t0 t1 : ℝ) (nt : ℤ) (pm : ℝ → ℝ) (amplitude : ℝ) : Option (List ℝ) :=
  if 0 < nt ∧ t0 < t1 then
    some ((List.range nt.toNat).map fun i : ℕ =>
      amplitude *
        p.interval_mean (pm (t0 + (i : ℝ) * ((t1 - t0) / (nt : ℝ))))
          (pm (t0 + ((i : ℝ) + 1) * ((t1 - t0) / (nt : ℝ)))))
  else none

/-- Number of Fourier coefficients computed internally:
`internal_nphi / 2 + 10` (header lines 116-118). -/
def internal_nphi2 (p : von_mises_profile) : ℕ :=
  p.internal_nphi / 2 + 10

/-- Modelled from the spec: Fourier coefficient `rho_m`, a direct discrete
cosine summation of the raw grid samples; detrending zeroes only the `m = 0`
coefficient. -/
noncomputable def profile_fft (p : von_mises_profile) (m : ℕ) : ℝ :=
  if m = 0 ∧ p.detrend then 0
  else
    (∑ i in Finset.range p.internal_nphi,
        p.raw_grid i * Real.cos (2 * Real.pi * m * i / p.internal_nphi))
      / p.internal_nphi

/-- Modelled from the spec: `get_profile_fft` returns `nout` coefficients in
ascending mode order from `m = 0` (defaulting to the internally computed
count when `nout = 0`), zero-padding past the computed count. -/
noncomputable def get_profile_fft (p : von_mises_profile) (nout : ℕ) : List ℝ :=
  (List.range (if nout = 0 then p.internal_nphi2 else nout)).map fun m =>
    if m < p.internal_nphi2 then p.profile_fft m else 0

/-- A sinc-like attenuation factor: `sin x / x`, equal to 1 at `x = 0`. -/
noncomputable def sinc_like (x : ℝ) : ℝ :=
  if x = 0 then 1 else Real.sin x / x

/-- Modelled from the spec: sum over spectral modes of squared mode power,
each mode attenuated by a sinc-like finite-bin-width factor at frequency
`m * pulse_freq`. -/
noncomputable def snr_mode_sum (p : von_mises_profile) (dt_sample pulse_freq : ℝ) : ℝ :=
  ∑ m in Finset.range p.internal_nphi2,
    sinc_like (Real.pi * m * pulse_freq * dt_sample) ^ 2 * p.profile_fft m ^ 2

/-- Modelled from the spec: single-pulse signal-to-noise, the square root of
the attenuated mode-power sum normalized by the per-sample noise RMS.
It takes no amplitude argument and assumes amplitude = 1 (header line 94). -/
noncomputable def get_single_pulse_signal_to_noise (p : von_mises_profile)
    (dt_sample pulse_freq sample_rms : ℝ) : ℝ :=
  Real.sqrt (p.snr_mode_sum dt_sample pulse_freq) / sample_rms

/-- Modelled from the spec: multi-pulse signal-to-noise scales the squared
single-pulse SNR by the number of pulses `total_time * pulse_freq` and takes
the square root.  It takes no amplitude argument and assumes amplitude = 1. -/
noncomputable def get_multi_pulse_signal_to_noise (p : von_mises_profile)
    (total_time dt_sample pulse_freq sample_rms : ℝ) : ℝ :=
  Real.sqrt (total_time * pulse_freq *
    p.get_single_pulse_signal_to_noise dt_sample pulse_freq sample_rms ^ 2)

/-- Modelled from the spec: single-pulse SNR of a signal simulated with
amplitude `a`: the scaled profile has Fourier coefficients `a * rho_m`. -/
noncomputable def single_pulse_snr_with_amplitude (p : von_mises_profile)
    (a dt_sample pulse_freq sample_rms : ℝ) : ℝ :=
  Real.sqrt (∑ m in Finset.range p.internal_nphi2,
      sinc_like (Real.pi * m * pulse_freq * dt_sample) ^ 2 * (a * p.profile_fft m) ^ 2)
    / sample_rms

/-- Modelled from the spec: multi-pulse SNR of a signal simulated with
amplitude `a`. -/
noncomputable def multi_pulse_snr_with_amplitude (p : von_mises_profile)
    (a total_time dt_sample pulse_freq sample_rms : ℝ) : ℝ :=
  Real.sqrt (total_time * pulse_freq *
    p.single_pulse_snr_with_amplitude a dt_sample pulse_freq sample_rms ^ 2)

open Classical in
/-- Modelled from the spec: the constructor checks its arguments and fails
iff `duty_cycle` is outside the open interval (0,1) or the resolution hint
is negative.  The automatic grid-resolution rule is unspecified beyond
producing an even positive bin count; it is modelled as a fixed even
default, and a positive hint is rounded up to the next even integer. -/
noncomputable def make (duty_cycle : ℝ) (detrend : Bool) (min_internal_nphi : ℤ) :
    Option von_mises_profile :=
  if 0 < duty_cycle ∧ duty_cycle < 1 ∧ 0 ≤ min_internal_nphi then
    some ⟨duty_cycle, detrend,
      if min_internal_nphi = 0 then 1024 else 2 * ((min_internal_nphi.toNat + 1) / 2)⟩
  else none

end von_mises_profile

end Simpulse

namespace Simpulse

open von_mises_profile

/-- Claim C5: `point_eval` is periodic in phase with period 1: the phase is
wrapped into `[0,1)` by true modulo, so shifting the phase by any integer
(in particular from 0 to 1) leaves the value unchanged, for every profile
state and amplitude. -/
theorem point_eval_periodic (p : von_mises_profile) (phi a : ℝ) (k : ℤ) :
    p.point_eval (phi + k) a = p.point_eval phi a := by
  unfold von_mises_profile.point_eval
  rw [Int.fract_add_int]

/-- Claim C9: every failure is an invalid-argument check at the detecting
operation: construction succeeds iff `duty_cycle ∈ (0,1)` and the resolution
hint is nonnegative, and `eval_integrated_samples` succeeds iff the sample
count is positive and the time bounds are increasing. -/
theorem failure_conditions :
    (∀ (d : ℝ) (b : Bool) (h : ℤ),
        (von_mises_profile.make d b h).isSome = true ↔ 0 < d ∧ d < 1 ∧ 0 ≤ h) ∧
      ∀ (p : von_mises_profile) (t0 t1 : ℝ) (nt : ℤ) (pm : ℝ → ℝ) (a : ℝ),
        (p.eval_integrated_samples t0 t1 nt pm a).isSome = true ↔ 0 < nt ∧ t0 < t1 := by
  constructor
  · intro d b h
    by_cases hc : 0 < d ∧ d < 1 ∧ 0 ≤ h
    · simp [von_mises_profile.make, hc]
    · simp [von_mises_profile.make, hc]
  · intro p t0 t1 nt pm a
    by_cases hc : 0 < nt ∧ t0 < t1
    · simp [von_mises_profile.eval_integrated_samples, hc]
    · simp [von_mises_profile.eval_integrated_samples, hc]

/-- Claim C8: the multi-pulse SNR estimate equals the single-pulse SNR scaled
by the square root of the number of pulses `total_time * pulse_freq`, for all
valid (nonnegative) inputs. -/
theorem multi_pulse_snr_consistency (p : von_mises_profile)
    (T dt f rms : ℝ) (hT : 0 ≤ T) (hf : 0 ≤ f) (hrms : 0 ≤ rms) :
    p.get_multi_pulse_signal_to_noise T dt f rms =
      p.get_single_pulse_signal_to_noise dt f rms * Real.sqrt (T * f) := by
  have hs : 0 ≤ p.get_single_pulse_signal_to_noise dt f rms :=
    div_nonneg (Real.sqrt_nonneg _) hrms
  unfold von_mises_profile.get_multi_pulse_signal_to_noise
  rw [Real.sqrt_mul (mul_nonneg hT hf), Real.sqrt_sq hs, mul_comm]

/-- At a grid-point phase `i / internal_nphi` with `i` inside the grid,
`point_eval` reduces to the stored (possibly detrended) grid sample. -/
lemma point_eval_grid (p : von_mises_profile) (hN : 0 < p.internal_nphi)
    (i : ℕ) (hi : i < p.internal_nphi) (a : ℝ) :
    p.point_eval (i / p.internal_nphi) a = a * p.detrended_profile i := by
  have hNR : (0:ℝ) < p.internal_nphi := by exact_mod_cast hN
  have hfr : Int.fract ((i:ℝ) / p.internal_nphi) = (i:ℝ) / p.internal_nphi := by
    rw [Int.fract_eq_self]
    refine ⟨by positivity, ?_⟩
    rw [div_lt_one hNR]
    exact_mod_cast hi
  have ht : ((i:ℝ) / p.internal_nphi) * p.internal_nphi = (i:ℝ) :=
    div_mul_cancel₀ _ (ne_of_gt hNR)
  unfold von_mises_profile.point_eval
  rw [hfr, ht, Int.floor_natCast, Int.toNat_natCast]
  ring

/-- Claim C4: for a non-detrended profile, `point_eval` at every grid-point
phase `i / internal_nphi` returns `amplitude * exp (-2 kappa sin^2 (pi phi))`;
in particular the peak `point_eval 0 1` equals 1 and (the grid size being
even) the trough `point_eval (1/2) 1` equals `exp (-2 kappa)`. -/
theorem point_eval_grid_values (p : von_mises_profile)
    (hd : p.detrend = false) (hN : 0 < p.internal_nphi) :
    (∀ (a : ℝ) (i : ℕ), i ≤ p.internal_nphi →
        p.point_eval (i / p.internal_nphi) a =
          a * Real.exp (-2 * kappa p.duty_cycle *
            Real.sin (Real.pi * (i / p.internal_nphi)) ^ 2)) ∧
      p.point_eval 0 1 = 1 ∧
      (p.internal_nphi % 2 = 0 →
        p.point_eval (1/2) 1 = Real.exp (-2 * kappa p.duty_cycle)) := by
  have hNR : (0:ℝ) < p.internal_nphi := by exact_mod_cast hN
  have hgrid : ∀ (a : ℝ) (i : ℕ), i ≤ p.internal_nphi →
      p.point_eval (i / p.internal_nphi) a =
        a * Real.exp (-2 * kappa p.duty_cycle *
          Real.sin (Real.pi * (i / p.internal_nphi)) ^ 2) := by
    intro a i hi
    rcases lt_or_eq_of_le hi with hlt | heq
    · rw [point_eval_grid p hN i hlt a]
      simp [von_mises_profile.detrended_profile, von_mises_profile.raw_grid, rho, hd]
    · subst heq
      have h1 : ((p.internal_nphi : ℝ)) / (p.internal_nphi : ℝ) = 1 :=
        div_self (ne_of_gt hNR)
      rw [h1]
      unfold von_mises_profile.point_eval
      rw [Int.fract_one]
      norm_num
      simp [von_mises_profile.detrended_profile, von_mises_profile.raw_grid, rho, hd,
        Real.sin_pi]
  refine ⟨hgrid, ?_, ?_⟩
  · have h0 := hgrid 1 0 (le_of_lt hN)
    simpa using h0
  · intro hev
    have hk2 : p.internal_nphi / 2 * 2 = p.internal_nphi :=
      Nat.div_mul_cancel (Nat.dvd_of_mod_eq_zero hev)
    have hkpos : 0 < p.internal_nphi / 2 := by omega
    have hklt : p.internal_nphi / 2 < p.internal_nphi := by omega
    have hhalf : ((p.internal_nphi / 2 : ℕ) : ℝ) / (p.internal_nphi : ℝ) = 1 / 2 := by
      have h2 : ((p.internal_nphi : ℕ) : ℝ) = 2 * ((p.internal_nphi / 2 : ℕ) : ℝ) := by
        exact_mod_cast (by omega : p.internal_nphi = 2 * (p.internal_nphi / 2))
      have hkR : ((p.internal_nphi / 2 : ℕ) : ℝ) ≠ 0 :=
        Nat.cast_ne_zero.mpr (Nat.pos_iff_ne_zero.mp hkpos)
      rw [h2]
      field_simp
      ring
    have h := hgrid 1 (p.internal_nphi / 2) (le_of_lt hklt)
    rw [hhalf] at h
    rw [h]
    have hs : Real.sin (Real.pi * (1 / 2)) = 1 := by
      rw [show Real.pi * (1 / 2) = Real.pi / 2 by ring, Real.sin_pi_div_two]
    rw [hs]
    norm_num

/-- Witness for C4 at the concrete profile (duty 1/2, detrend false, 2 bins):
the peak value is 1. -/
theorem point_eval_grid_values_witness :
    (von_mises_profile.mk (1/2) false 2).point_eval 0 1 = 1 :=
  (point_eval_grid_values (von_mises_profile.mk (1/2) false 2) rfl
    (by norm_num)).2.1

/-- Shifting a phase by one period advances the modelled antiderivative by
exactly one period integral. -/
lemma phase_antider_add_one (p : von_mises_profile) (phi : ℝ) :
    p.phase_antider (phi + 1) = p.phase_antider phi + p.period_integral := by
  unfold von_mises_profile.phase_antider
  rw [show phi + 1 = phi + ((1:ℤ):ℝ) by norm_num, Int.fract_add_int, Int.floor_add_int]
  push_cast
  ring

/-- Claim C2: a single-bin call of `eval_integrated_samples` whose time bounds
map to a phase interval of exactly one whole period yields the single value
`mean_flux * amplitude`, or 0 if the profile is detrended. -/
theorem eval_one_bin_full_period (p : von_mises_profile) (t0 t1 a : ℝ)
    (pm : ℝ → ℝ) (h : t0 < t1) (hspan : pm t1 = pm t0 + 1) :
    p.eval_integrated_samples t0 t1 1 pm a =
      some [if p.detrend then 0 else p.mean_flux * a] := by
  unfold von_mises_profile.eval_integrated_samples
  rw [if_pos ⟨by norm_num, h⟩]
  rw [show (1:ℤ).toNat = 1 from rfl, show List.range 1 = [0] from rfl,
    List.map_cons, List.map_nil]
  have hL : t0 + ((0:ℕ):ℝ) * ((t1 - t0) / ((1:ℤ):ℝ)) = t0 := by push_cast; ring
  have hR : t0 + (((0:ℕ):ℝ) + 1) * ((t1 - t0) / ((1:ℤ):ℝ)) = t1 := by push_cast; ring
  rw [hL, hR, hspan]
  unfold von_mises_profile.interval_mean
  rw [phase_antider_add_one]
  unfold von_mises_profile.period_integral
  by_cases hdet : p.detrend
  · simp [hdet]
  · simp only [hdet, if_false, Bool.false_eq_true]
    congr 1
    field_simp
    ring

/-- Witness for C2 at a concrete profile, time interval, phase model and
amplitude. -/
theorem eval_one_bin_full_period_witness :
    (von_mises_profile.mk (1/2) false 2).eval_integrated_samples 0 1 1 id 2 =
      some [if (von_mises_profile.mk (1/2) false 2).detrend then 0
            else (von_mises_profile.mk (1/2) false 2).mean_flux * 2] :=
  eval_one_bin_full_period (von_mises_profile.mk (1/2) false 2) 0 1 2 id
    (by norm_num) (by simp)

/-- Numeric bounds on the narrowness parameter at duty cycle 0.1, obtained
from interval bounds on `pi`, `sin (pi/20)` and `log 2`. -/
lemma kappa_tenth_bounds : 14 < kappa (1/10) ∧ kappa (1/10) < 14.3 := by
  have hpi_u := Real.pi_lt_d6
  have hpi_l := Real.pi_gt_d6
  have hx0 : (0:ℝ) < Real.pi / 20 := by linarith
  have hxu : Real.pi / 20 < 0.15707965 := by linarith
  have hxl : (0.1570796:ℝ) < Real.pi / 20 := by linarith
  have hsu : Real.sin (Real.pi / 20) < 0.15707965 := (Real.sin_lt hx0).trans hxu
  have hcube := Real.sin_gt_sub_cube hx0 (by linarith)
  have hx3 : (Real.pi / 20) ^ 3 < 0.15707965 ^ 3 :=
    pow_lt_pow_left₀ hxu (le_of_lt hx0) (by norm_num)
  have hsl : (0.156110:ℝ) < Real.sin (Real.pi / 20) := by
    have hnum : (0.156110:ℝ) < 0.1570796 - 0.15707965 ^ 3 / 4 := by norm_num
    linarith
  have hs0 : (0:ℝ) < Real.sin (Real.pi / 20) := by linarith
  have hsqu : Real.sin (Real.pi / 20) ^ 2 < 0.15707965 ^ 2 :=
    pow_lt_pow_left₀ hsu (le_of_lt hs0) (by norm_num)
  have hsql : (0.156110:ℝ) ^ 2 < Real.sin (Real.pi / 20) ^ 2 :=
    pow_lt_pow_left₀ hsl (by norm_num) (by norm_num)
  have hd0 : (0:ℝ) < 2 * Real.sin (Real.pi / 20) ^ 2 :=
    mul_pos two_pos (pow_pos hs0 2)
  have hLl := Real.log_two_gt_d9
  have hLu := Real.log_two_lt_d9
  have hcu : (0.15707965:ℝ) ^ 2 < 0.02467402 := by norm_num
  have hcl : (0.02437:ℝ) < (0.156110:ℝ) ^ 2 := by norm_num
  have harg : Real.pi * (1/10) / 2 = Real.pi / 20 := by ring
  unfold kappa
  rw [harg]
  constructor
  · rw [lt_div_iff₀ hd0]
    linarith
  · rw [div_lt_iff₀ hd0]
    linarith

/-- Claim C3 (amended): the narrowness parameter satisfies
`kappa = log 2 / (2 sin^2 (pi * duty_cycle / 2))` for every duty cycle, and
for `duty_cycle = 0.1` it is approximately 14.16 (strictly between 14 and
14.3) rather than the 70.23 the spec states. -/
theorem kappa_closed_form_and_value :
    (∀ D : ℝ, kappa D = Real.log 2 / (2 * Real.sin (Real.pi * D / 2) ^ 2)) ∧
      14 < kappa (1/10) ∧ kappa (1/10) < 14.3 :=
  ⟨fun _ => rfl, kappa_tenth_bounds⟩

/-- Claim C3 counterexample: at duty cycle 0.1 the narrowness parameter
differs from the spec value 70.23 by more than 1, so `kappa ≈ 70.23` fails. -/
theorem kappa_tenth_not_approx_70 : 1 < |kappa (1/10) - 70.23| := by
  have h := kappa_tenth_bounds
  have habs := neg_le_abs (kappa (1/10) - 70.23)
  linarith [h.2]

/-- Element lookup in a mapped range list. -/
lemma getD_range_map (g : ℕ → ℝ) (n m : ℕ) (h : m < n) :
    ((List.range n).map g).getD m 0 = g m := by
  rw [List.getD_eq_getElem?_getD, List.getElem?_map, List.getElem?_range h]
  rfl

/-- The raw profile grid is periodic: the last grid sample equals the
first one. -/
lemma raw_grid_periodic (p : von_mises_profile) (hN : 0 < p.internal_nphi) :
    p.raw_grid p.internal_nphi = p.raw_grid 0 := by
  have hNR : ((p.internal_nphi : ℕ) : ℝ) ≠ 0 :=
    Nat.cast_ne_zero.mpr (Nat.pos_iff_ne_zero.mp hN)
  unfold von_mises_profile.raw_grid rho
  rw [Nat.cast_zero, zero_div, div_self hNR, mul_one, mul_zero, Real.sin_pi,
    Real.sin_zero]

/-- On the periodic grid the trapezoid quadrature equals the plain average of
the first `internal_nphi` raw samples. -/
lemma mean_flux_eq_avg (p : von_mises_profile) (hN : 0 < p.internal_nphi) :
    p.mean_flux =
      (∑ i in Finset.range p.internal_nphi, p.raw_grid i) / p.internal_nphi := by
  unfold von_mises_profile.mean_flux
  congr 1
  have h1 : ∑ i in Finset.range (p.internal_nphi + 1), p.raw_grid i
      = (∑ i in Finset.range p.internal_nphi, p.raw_grid (i + 1)) + p.raw_grid 0 :=
    Finset.sum_range_succ' _ _
  have h2 : ∑ i in Finset.range (p.internal_nphi + 1), p.raw_grid i
      = (∑ i in Finset.range p.internal_nphi, p.raw_grid i) +
          p.raw_grid p.internal_nphi :=
    Finset.sum_range_succ _ _
  have hper := raw_grid_periodic p hN
  have hsplit : ∑ i in Finset.range p.internal_nphi,
      (p.raw_grid i + p.raw_grid (i + 1)) / 2
      = ((∑ i in Finset.range p.internal_nphi, p.raw_grid i) +
          ∑ i in Finset.range p.internal_nphi, p.raw_grid (i + 1)) / 2 := by
    rw [← Finset.sum_add_distrib, ← Finset.sum_div]
  rw [hsplit]
  linarith [h1, h2]

/-- Claim C6: the DC Fourier coefficient returned by `get_profile_fft` equals
`mean_flux` when the profile is not detrended, and 0 when it is. -/
theorem profile_fft_dc (p : von_mises_profile) (hN : 0 < p.internal_nphi) :
    (p.get_profile_fft 0).getD 0 0 = if p.detrend then 0 else p.mean_flux := by
  unfold von_mises_profile.get_profile_fft
  rw [if_pos rfl,
    getD_range_map _ _ _ (by unfold von_mises_profile.internal_nphi2; omega),
    if_pos (by unfold von_mises_profile.internal_nphi2; omega)]
  by_cases hdet : p.detrend
  · simp [von_mises_profile.profile_fft, hdet]
  · rw [if_neg (by simp [hdet])]
    unfold von_mises_profile.profile_fft
    rw [if_neg (by simp [hdet]), mean_flux_eq_avg p hN]
    congr 1
    apply Finset.sum_congr rfl
    intro i _
    simp

/-- Witness for C6 at a concrete detrended profile. -/
theorem profile_fft_dc_witness :
    ((von_mises_profile.mk (1/2) true 2).get_profile_fft 0).getD 0 0 =
      if (von_mises_profile.mk (1/2) true 2).detrend then 0
      else (von_mises_profile.mk (1/2) true 2).mean_flux :=
  profile_fft_dc (von_mises_profile.mk (1/2) true 2) (by norm_num)

/-- Claim C7: `get_profile_fft` with requested count 0 returns the
`internal_nphi / 2 + 10` internally computed coefficients in ascending mode
order from `m = 0`; a smaller positive request truncates to the first
coefficients; entries past the computed count are exactly 0. -/
theorem get_profile_fft_spec (p : von_mises_profile) :
    (p.get_profile_fft 0).length = p.internal_nphi / 2 + 10 ∧
      (∀ m, m < p.internal_nphi2 →
        (p.get_profile_fft 0).getD m 0 = p.profile_fft m) ∧
      (∀ n, 0 < n → n ≤ p.internal_nphi2 →
        p.get_profile_fft n = (List.range n).map p.profile_fft) ∧
      ∀ n m, p.internal_nphi2 ≤ m → m < n →
        (p.get_profile_fft n).getD m 0 = 0 := by
  refine ⟨?_, ?_, ?_, ?_⟩
  · simp [von_mises_profile.get_profile_fft, von_mises_profile.internal_nphi2]
  · intro m hm
    unfold von_mises_profile.get_profile_fft
    rw [if_pos rfl, getD_range_map _ _ _ hm, if_pos hm]
  · intro n hn hle
    unfold von_mises_profile.get_profile_fft
    rw [if_neg (Nat.pos_iff_ne_zero.mp hn)]
    apply List.map_congr_left
    intro m hm
    rw [List.mem_range] at hm
    rw [if_pos (lt_of_lt_of_le hm hle)]
  · intro n m hge hlt
    have hn0 : n ≠ 0 := by omega
    unfold von_mises_profile.get_profile_fft
    rw [if_neg hn0, getD_range_map _ _ _ hlt, if_neg (by omega)]

/-- Witness for C7 at a concrete profile: default length and one zero-padded
entry. -/
theorem get_profile_fft_spec_witness :
    ((von_mises_profile.mk (1/2) false 4).get_profile_fft 0).length = 4 / 2 + 10 ∧
      ((von_mises_profile.mk (1/2) false 4).get_profile_fft 15).getD 13 0 = 0 :=
  ⟨(get_profile_fft_spec (von_mises_profile.mk (1/2) false 4)).1,
    (get_profile_fft_spec (von_mises_profile.mk (1/2) false 4)).2.2.2 15 13
      (by norm_num [von_mises_profile.internal_nphi2]) (by norm_num)⟩

/-- Claim C10: the SNR estimators take no amplitude argument and assume
amplitude 1: for a signal simulated with amplitude `a ≥ 0`, the SNR of the
scaled signal is `a` times the value the estimators return, for both the
single-pulse and multi-pulse estimates. -/
theorem snr_amplitude_scaling (p : von_mises_profile)
    (a T dt f rms : ℝ) (ha : 0 ≤ a) :
    p.single_pulse_snr_with_amplitude a dt f rms =
        a * p.get_single_pulse_signal_to_noise dt f rms ∧
      p.multi_pulse_snr_with_amplitude a T dt f rms =
        a * p.get_multi_pulse_signal_to_noise T dt f rms := by
  have hsum : (∑ m in Finset.range p.internal_nphi2,
      sinc_like (Real.pi * m * f * dt) ^ 2 * (a * p.profile_fft m) ^ 2)
      = a ^ 2 * p.snr_mode_sum dt f := by
    unfold von_mises_profile.snr_mode_sum
    rw [Finset.mul_sum]
    apply Finset.sum_congr rfl
    intro m _
    ring
  have h1 : p.single_pulse_snr_with_amplitude a dt f rms =
      a * p.get_single_pulse_signal_to_noise dt f rms := by
    unfold von_mises_profile.single_pulse_snr_with_amplitude
      von_mises_profile.get_single_pulse_signal_to_noise
    rw [hsum, Real.sqrt_mul (sq_nonneg a), Real.sqrt_sq ha, mul_div_assoc]
  refine ⟨h1, ?_⟩
  unfold von_mises_profile.multi_pulse_snr_with_amplitude
    von_mises_profile.get_multi_pulse_signal_to_noise
  rw [h1, show T * f * (a * p.get_single_pulse_signal_to_noise dt f rms) ^ 2
      = a ^ 2 * (T * f * p.get_single_pulse_signal_to_noise dt f rms ^ 2) by ring,
    Real.sqrt_mul (sq_nonneg a), Real.sqrt_sq ha]

/-- Witness for C10 at a concrete profile and amplitude 2. -/
theorem snr_amplitude_scaling_witness :
    (von_mises_profile.mk (1/2) false 4).single_pulse_snr_with_amplitude 2 1 3 1 =
      2 * (von_mises_profile.mk (1/2) false 4).get_single_pulse_signal_to_noise 1 3 1 :=
  (snr_amplitude_scaling (von_mises_profile.mk (1/2) false 4) 2 1 1 3 1
    (by norm_num)).1

/-- Witness for C8 at a concrete profile and concrete parameters. -/
theorem multi_pulse_snr_consistency_witness :
    (von_mises_profile.mk (1/2) false 4).get_multi_pulse_signal_to_noise 2 1 3 1 =
      (von_mises_profile.mk (1/2) false 4).get_single_pulse_signal_to_noise 1 3 1 *
        Real.sqrt (2 * 3) :=
  multi_pulse_snr_consistency (von_mises_profile.mk (1/2) false 4) 2 1 3 1
    (by norm_num) (by norm_num) (by norm_num)

end Simpulse
